import Mathlib

/-!
Shallow embedding of the katana dependency-injection engine
(github.com/drborges/katana) and proofs about its resolution algorithm.

The embedding follows the Go sources:
  * `katana.go`   — `Trace`, `Trace.Add`, `Trace.Reset`, `Injector`, `New`,
                    `Clone`, `ProvideNew`, `ProvideSingleton`, `Resolve`.
  * `src/unnamed/part_003` — `ValidateProvider`, the panic-based
                    `ProvideNew`/`ProvideSingleton` (errors modelled as
                    `Except`/`Option` values, since a Go panic aborts the
                    call tree exactly like an early error return here), and
                    the `Inject`-based recursive resolution of a provider's
                    parameter list.

Modelling conventions:
  * A Go `reflect.Type` is a `GoType`: `id` models Go type identity
    (comparability of `reflect.Type` values, used as the map key), `str`
    models `Type.String()` (used by the trace).  Per the Go reflect
    documentation two distinct types may render to the same string,
    so the two fields are independent.
  * A Go heap identity is a `Nat` (`Instance`); invoking a constructor that
    allocates is modelled by returning the injector's `nextId` counter and
    incrementing it, so two allocations are never identical.
  * Go maps keyed by `reflect.Type` are association lists keyed by `GoType`.
  * Nontermination of the Go code is modelled by a fuel parameter; a
    computation that exhausts its fuel returns the `outOfFuel` marker.
  * A provider is modelled by what the engine observes of it: whether the
    registered value is a function (`isFunc`), its number of return values
    (`numOut`), the list of parameter types the injector resolves for it
    (`params`, resolved left to right exactly as `Inject` does), and the
    behaviour of the constructor body (`behavior`): allocate a fresh
    instance, return a captured constant (the `Provide` value shorthand),
    or return a non-nil error.
  * `Resolve` items are modelled by their pointee type: passing a
    non-pointer fails with `ErrNoSuchPtr` before reaching any of the logic
    modelled here and no claim concerns that branch.
-/

namespace Katana

/-- Model of `reflect.Type`: `id` is Go type identity, `str` is `Type.String()`. -/
structure GoType where
  id : Nat
  str : String
deriving DecidableEq, Repr

/-- Model of a Go heap identity for a constructed instance. -/
abbrev Instance := Nat

/-- Model of `InstanceType` from katana.go: `TypeSingleton` / `TypeNewInstance`. -/
inductive InstanceType where
  | singleton
  | newInstance
deriving DecidableEq, Repr

/-- Observable behaviour of a registered constructor body. -/
inductive ProviderBehavior where
  /-- the constructor allocates and returns a fresh instance -/
  | fresh
  /-- the constructor always returns the captured value `i`
      (the `Provide`/`ProvideValues` shorthand) -/
  | const (i : Instance)
  /-- the constructor returns a non-nil error -/
  | fail
deriving DecidableEq, Repr

/-- What the engine observes of a registered provider value. -/
structure Provider where
  /-- whether `reflect.TypeOf(provider).Kind() == reflect.Func` -/
  isFunc : Bool
  /-- number of return values (`typ.NumOut()`) -/
  numOut : Nat
  /-- parameter types, resolved left to right by `Inject` -/
  params : List GoType
  /-- behaviour of the constructor body once invoked -/
  behavior : ProviderBehavior
deriving DecidableEq, Repr

/-- Model of `Dependency` from katana.go: a lifecycle policy paired with a provider. -/
structure Dependency where
  type : InstanceType
  provider : Provider
deriving DecidableEq, Repr

/-- The error taxonomy of the engine. `outOfFuel` is the embedding's marker
for an execution that exceeds the fuel bound (models nontermination). -/
inductive KError where
  | errNoSuchPtr (t : GoType)
  | errNoSuchCallable
  | errNoSuchProvider (t : GoType)
  | errCyclicDependency (chain : List String)
  | errInvalidProvider
  | errProviderAlreadyRegistered (t : GoType)
  | errProviderFailed
  | outOfFuel
deriving DecidableEq, Repr

/-- Model of `type Trace []string` from katana.go. -/
abbrev Trace := List String

/-- Model of `Trace.Add` from katana.go.  If the rendered type is already present the
repeated key is appended, the error payload captures that extended chain, and
the deferred `Reset` leaves the trace empty; otherwise the rendered type is
appended.  Returns (error payload if cyclic, updated trace). -/
def Trace.Add (trace : Trace) (typ : GoType) : Option (List String) × Trace :=
  if trace.contains typ.str then
    (some (trace ++ [typ.str]), [])
  else
    (none, trace ++ [typ.str])

/-- Association-list lookup, modelling a Go map read keyed by `reflect.Type`. -/
def lookupAssoc {α : Type} : List (GoType × α) → GoType → Option α
  | [], _ => none
  | (k, v) :: rest, t => if k = t then some v else lookupAssoc rest t

/-- Model of `Injector` from katana.go.  `nextId` models the Go heap allocator and
does not correspond to a Go field: it is the source of fresh instance
identities. -/
structure Injector where
  dependencies : List (GoType × Dependency)
  instances : List (GoType × Instance)
  trace : Trace
  nextId : Nat
deriving DecidableEq, Repr

/-- Provider-registry lookup: `injector.dependencies[typ]`. -/
def lookupDep (inj : Injector) (t : GoType) : Option Dependency :=
  lookupAssoc inj.dependencies t

/-- Instance-cache lookup: `injector.instances[typ]`. -/
def lookupInst (inj : Injector) (t : GoType) : Option Instance :=
  lookupAssoc inj.instances t

/-- Model of `New` from katana.go (fresh injector; `nextId` parameterised so distinct
injectors can share the modelled heap counter). -/
def New (n : Nat := 0) : Injector :=
  { dependencies := [], instances := [], trace := [], nextId := n }

/-- Model of `Injector.Clone` from katana.go: copies every provider entry and every
cached instance into a fresh injector (whose trace is empty). -/
def Clone (inj : Injector) : Injector :=
  { dependencies := inj.dependencies
    instances := inj.instances
    trace := []
    nextId := inj.nextId }

/-- Model of `ValidateProvider` from src/unnamed/part_003 lines 19-31: a provider must
be a function (`ErrNoSuchCallable` otherwise) with exactly one return value
(`ErrInvalidProvider` otherwise). -/
def ValidateProvider (p : Provider) : Option KError :=
  if p.isFunc = false then some .errNoSuchCallable
  else if p.numOut ≠ 1 then some .errInvalidProvider
  else none

/-- Model of `Injector.ProvideNew` from src/unnamed/part_003 lines 86-103: fails
(panics, modelled as an error value) if the key is registered or the
provider is invalid, otherwise records a new-instance entry. -/
def ProvideNew (inj : Injector) (t : GoType) (p : Provider) : Except KError Injector :=
  if (lookupDep inj t).isSome then
    .error (.errProviderAlreadyRegistered t)
  else
    match ValidateProvider p with
    | some e => .error e
    | none =>
        .ok { inj with dependencies := (t, ⟨.newInstance, p⟩) :: inj.dependencies }

/-- Model of `Injector.ProvideSingleton` from src/unnamed/part_003 lines 105-121. -/
def ProvideSingleton (inj : Injector) (t : GoType) (p : Provider) : Except KError Injector :=
  if (lookupDep inj t).isSome then
    .error (.errProviderAlreadyRegistered t)
  else
    match ValidateProvider p with
    | some e => .error e
    | none =>
        .ok { inj with dependencies := (t, ⟨.singleton, p⟩) :: inj.dependencies }

/-- Model of `Injector.Provide` (value shorthand) from src/unnamed/part_003 lines
123-130: each value is registered as a singleton whose zero-parameter
constructor returns exactly that value.  A failure aborts the loop but
registrations already performed remain (the Go panic unwinds mid-loop). -/
def Provide (inj : Injector) : List (GoType × Instance) → Option KError × Injector
  | [] => (none, inj)
  | (t, v) :: rest =>
    match ProvideSingleton inj t ⟨true, 1, [], .const v⟩ with
    | .error e => (some e, inj)
    | .ok inj' => Provide inj' rest

/-- Resolution of a list of types left to right, threading the injector and
stopping at the first error.  This is the loop shared by
`Inject` (constructor parameters, src/unnamed/part_003 lines 202-208) and by
the item loop of `Resolve`; the resolver for a single type is a parameter. -/
def resolveList (R : Injector → GoType → (Except KError Instance) × Injector) :
    Injector → List GoType → (Except KError (List Instance)) × Injector
  | inj, [] => (.ok [], inj)
  | inj, t :: rest =>
    match R inj t with
    | (.error e, inj') => (.error e, inj')
    | (.ok i, inj') =>
      match resolveList R inj' rest with
      | (.error e, inj2) => (.error e, inj2)
      | (.ok is, inj2) => (.ok (i :: is), inj2)

/-- Invocation of a provider: resolve its parameter types left to right
(`Inject`), then run the constructor body (`dep.InjectedProvider()` /
`dep.Provider(injector)`), allocating a fresh instance, returning the
captured constant, or failing. -/
def invokeWith (R : Injector → GoType → (Except KError Instance) × Injector)
    (inj : Injector) (p : Provider) : (Except KError Instance) × Injector :=
  match resolveList R inj p.params with
  | (.error e, inj') => (.error e, inj')
  | (.ok _, inj') =>
    match p.behavior with
    | .fresh => (.ok inj'.nextId, { inj' with nextId := inj'.nextId + 1 })
    | .const i => (.ok i, inj')
    | .fail => (.error .errProviderFailed, inj')

/-- Resolution of a single reference, from `Injector.Resolve` in katana.go
lines 109-157 (one loop iteration): provider lookup, singleton cache fast
path, `trace.Add` cycle guard, provider invocation, the unconditional
`injector.trace.Reset()` after the invocation, write-back, and the
singleton cache store guarded by a fresh registry lookup. -/
def resolveOne : Nat → Injector → GoType → (Except KError Instance) × Injector
  | 0, inj, _ => (.error .outOfFuel, inj)
  | fuel + 1, inj, typ =>
    match lookupDep inj typ with
    | none => (.error (.errNoSuchProvider typ), inj)
    | some dep =>
      match dep.type, lookupInst inj typ with
      | .singleton, some inst => (.ok inst, inj)
      | _, _ =>
        match Trace.Add inj.trace typ with
        | (some chain, tr) => (.error (.errCyclicDependency chain), { inj with trace := tr })
        | (none, tr) =>
          match invokeWith (resolveOne fuel) { inj with trace := tr } dep.provider with
          | (.error e, inj2) => (.error e, { inj2 with trace := [] })
          | (.ok inst, inj2) =>
            match lookupDep { inj2 with trace := [] } typ with
            | some d2 =>
              if d2.type = .singleton then
                (.ok inst, { inj2 with trace := [], instances := (typ, inst) :: inj2.instances })
              else
                (.ok inst, { inj2 with trace := [] })
            | none => (.ok inst, { inj2 with trace := [] })

/-- Model of `Injector.Resolve(items...)` from katana.go lines 109-157: process the
references left to right, stop at the first failure.  The third component
records, per reference, the value written into the caller's slot
(`none` = the slot was never written). -/
def Resolve (fuel : Nat) : Injector → List GoType →
    (Option KError) × Injector × List (Option Instance)
  | inj, [] => (none, inj, [])
  | inj, t :: rest =>
    match resolveOne fuel inj t with
    | (.error e, inj') => (some e, inj', none :: rest.map (fun _ => none))
    | (.ok i, inj') =>
      match Resolve fuel inj' rest with
      | (err, inj2, slots) => (err, inj2, some i :: slots)

/-! ### Concrete registries used by the theorems

The types and wiring mirror the repository's own test fixtures
(`katana_test.go`): `DepA` requires `DepB` and `DepD`, `DepD` requires
`DepC`, `DepC` requires `DepA` (the cyclic-sibling registry of
`TestKatanaDetectsCyclicDependencies`); `DependencyA`/`DependencyB` style
registries for the lifecycle tests. -/

/-- A provider that is a function with one return value, the given
parameter types, and a fresh-allocating body. -/
def freshP (ps : List GoType) : Provider := ⟨true, 1, ps, .fresh⟩

def tA : GoType := ⟨0, "DepA"⟩
def tB : GoType := ⟨1, "DepB"⟩
def tC : GoType := ⟨2, "DepC"⟩
def tD : GoType := ⟨3, "DepD"⟩
def tX : GoType := ⟨4, "DepX"⟩
def tU : GoType := ⟨5, "Unregistered"⟩

/-- The registry of the repository's `TestKatanaDetectsCyclicDependencies`:
`DepA` requires `(DepB, DepD)`, `DepB` nothing, `DepD` requires `DepC`,
`DepC` requires `DepA`; every entry has the `New` policy. -/
def cycReg : List (GoType × Dependency) :=
  [ (tA, ⟨.newInstance, freshP [tB, tD]⟩)
  , (tB, ⟨.newInstance, freshP []⟩)
  , (tC, ⟨.newInstance, freshP [tA]⟩)
  , (tD, ⟨.newInstance, freshP [tC]⟩) ]

/-- The cyclic-sibling injector, with an arbitrary heap counter `n`. -/
def cycInj (n : Nat) : Injector := ⟨cycReg, [], [], n⟩

/-- The same injector mid-resolution: `DepA` has been pushed on the trace. -/
def cycInjA (n : Nat) : Injector := ⟨cycReg, [], ["DepA"], n⟩

/-- Mutual two-cycle: `A` requires `B`, `B` requires `A`, both `New`. -/
def mutualInj : Injector :=
  ⟨[ (tA, ⟨.newInstance, freshP [tB]⟩)
   , (tB, ⟨.newInstance, freshP [tA]⟩) ], [], [], 0⟩

/-- An acyclic entry point into a cycle: `X` requires `A`, `A` requires `B`,
`B` requires `A`. -/
def outerInj : Injector :=
  ⟨[ (tX, ⟨.newInstance, freshP [tA]⟩)
   , (tA, ⟨.newInstance, freshP [tB]⟩)
   , (tB, ⟨.newInstance, freshP [tA]⟩) ], [], [], 0⟩

/-- A dependency-free singleton registration for `tA`. -/
def singletonInj : Injector := ⟨[(tA, ⟨.singleton, freshP []⟩)], [], [], 0⟩

/-- A dependency-free `New`-policy registration for `tA`. -/
def newInj : Injector := ⟨[(tA, ⟨.newInstance, freshP []⟩)], [], [], 0⟩

/-- Two distinct Go types (different identity) whose `String()` renderings
coincide — per the reflect documentation, type names are not unique across
packages. `u1` requires `u2`; `u2` has no dependencies. -/
def u1 : GoType := ⟨10, "pkg.T"⟩
def u2 : GoType := ⟨11, "pkg.T"⟩

def sameNameInj : Injector :=
  ⟨[ (u1, ⟨.newInstance, freshP [u2]⟩)
   , (u2, ⟨.newInstance, freshP []⟩) ], [], [], 0⟩

/-- The mutual two-cycle plus an unrelated, acyclic, dependency-free
registration for `tC`. -/
def mutualPlusInj : Injector :=
  ⟨[ (tA, ⟨.newInstance, freshP [tB]⟩)
   , (tB, ⟨.newInstance, freshP [tA]⟩)
   , (tC, ⟨.newInstance, freshP []⟩) ], [], [], 0⟩

/-- State of `singletonInj` after its singleton for `tA` has been resolved once:
the constructed instance `0` is cached and the heap counter advanced. -/
def singletonInjResolved : Injector :=
  ⟨singletonInj.dependencies, [(tA, 0)], [], 1⟩

/-- Modelled from the spec: the spec's phrase "the full ordered chain of
TypeKeys from the first occurrence through the repeated key" as a function
of the reported chain, for comparison with what the code actually reports. -/
def chainFromFirstOccurrence (chain : List String) (key : String) : List String :=
  chain.dropWhile (fun s => s ≠ key)

/-! ### Helper lemmas -/

theorem resolveList_cons_err {R : Injector → GoType → (Except KError Instance) × Injector}
    {inj inj' : Injector} {t : GoType} {e : KError} (rest : List GoType)
    (h : R inj t = (.error e, inj')) :
    resolveList R inj (t :: rest) = (.error e, inj') := by
  simp [resolveList, h]

theorem resolveList_cons_ok {R : Injector → GoType → (Except KError Instance) × Injector}
    {inj inj' : Injector} {t : GoType} {i : Instance} (rest : List GoType)
    (h : R inj t = (.ok i, inj')) :
    resolveList R inj (t :: rest) =
      (match resolveList R inj' rest with
       | (.error e, s) => (.error e, s)
       | (.ok is, s) => (.ok (i :: is), s)) := by
  simp [resolveList, h]

theorem resolveList_err2 {R : Injector → GoType → (Except KError Instance) × Injector}
    {inj inj' : Injector} {t : GoType} {i : Instance} {e : KError} (rest : List GoType)
    (h1 : R inj t = (.ok i, inj'))
    (h2 : (resolveList R inj' rest).1 = .error e) :
    (resolveList R inj (t :: rest)).1 = .error e := by
  rw [resolveList_cons_ok rest h1]
  rcases h3 : resolveList R inj' rest with ⟨r, s⟩
  rw [h3] at h2
  simp only at h2
  subst h2
  simp

theorem invokeWith_err {R : Injector → GoType → (Except KError Instance) × Injector}
    {inj : Injector} {p : Provider} {e : KError}
    (h : (resolveList R inj p.params).1 = .error e) :
    (invokeWith R inj p).1 = .error e := by
  unfold invokeWith
  rcases h2 : resolveList R inj p.params with ⟨r, inj'⟩
  rw [h2] at h
  simp only at h
  subst h
  simp

/-- Generic preservation of a predicate along `resolveList`, given that the
single-type resolver preserves it. -/
theorem resolveList_preserve {R : Injector → GoType → (Except KError Instance) × Injector}
    (Q : Injector → Prop)
    (hR : ∀ inj t, Q inj → Q (R inj t).2) :
    ∀ (ts : List GoType) (inj : Injector), Q inj → Q (resolveList R inj ts).2 := by
  intro ts
  induction ts with
  | nil => intro inj h; simpa [resolveList] using h
  | cons t rest ih =>
    intro inj h
    have h1 := hR inj t h
    rcases h2 : R inj t with ⟨r, inj'⟩
    rw [h2] at h1
    cases r with
    | error e => simpa [resolveList, h2] using h1
    | ok i =>
      have h3 := ih inj' h1
      rcases h4 : resolveList R inj' rest with ⟨r2, inj2⟩
      rw [h4] at h3
      cases r2 <;> simp [resolveList, h2, h4] <;> exact h3

/-- Generic preservation of a predicate along `invokeWith`. -/
theorem invokeWith_preserve {R : Injector → GoType → (Except KError Instance) × Injector}
    (Q : Injector → Prop)
    (hR : ∀ inj t, Q inj → Q (R inj t).2)
    (hBump : ∀ s, Q s → Q { s with nextId := s.nextId + 1 }) :
    ∀ (inj : Injector) (p : Provider), Q inj → Q (invokeWith R inj p).2 := by
  intro inj p h
  have h1 := resolveList_preserve Q hR p.params inj h
  unfold invokeWith
  rcases h2 : resolveList R inj p.params with ⟨r, inj'⟩
  rw [h2] at h1
  cases r with
  | error e => simpa using h1
  | ok is =>
    cases hb : p.behavior with
    | fresh => simpa using hBump inj' h1
    | const i => simpa using h1
    | fail => simpa using h1

/-- Generic preservation of a predicate along `resolveOne`, for predicates
insensitive to the trace, to heap allocation, and to cache stores. -/
theorem resolveOne_preserve (Q : Injector → Prop)
    (hTrace : ∀ s tr, Q s → Q { s with trace := tr })
    (hBump : ∀ s, Q s → Q { s with nextId := s.nextId + 1 })
    (hStore : ∀ s t i, Q s → Q { s with instances := (t, i) :: s.instances }) :
    ∀ (fuel : Nat) (inj : Injector) (t : GoType), Q inj → Q (resolveOne fuel inj t).2 := by
  intro fuel
  induction fuel with
  | zero => intro inj t h; simpa [resolveOne] using h
  | succ fuel ih =>
    intro inj t h
    have hInv : ∀ (s : Injector) (p : Provider),
        Q s → Q (invokeWith (resolveOne fuel) s p).2 :=
      invokeWith_preserve Q (fun s u hs => ih s u hs) hBump
    have walk : ∀ (dp : Provider),
        Q (((match Trace.Add inj.trace t with
            | (some chain, tr) =>
              ((.error (.errCyclicDependency chain) : Except KError Instance),
                { inj with trace := tr })
            | (none, tr) =>
              match invokeWith (resolveOne fuel) { inj with trace := tr } dp with
              | (.error e, inj2) => (.error e, { inj2 with trace := [] })
              | (.ok inst, inj2) =>
                match lookupDep { inj2 with trace := [] } t with
                | some d2 =>
                  if d2.type = .singleton then
                    (.ok inst, { inj2 with trace := [], instances := (t, inst) :: inj2.instances })
                  else
                    (.ok inst, { inj2 with trace := [] })
                | none => (.ok inst, { inj2 with trace := [] })
            : (Except KError Instance) × Injector)).2) := by
      intro dp
      rcases hadd : Trace.Add inj.trace t with ⟨err?, tr⟩
      cases err? with
      | some chain => simp only [hadd]; exact hTrace inj tr h
      | none =>
        simp only [hadd]
        have h2 := hInv { inj with trace := tr } dp (hTrace inj tr h)
        rcases hinv : invokeWith (resolveOne fuel) { inj with trace := tr } dp with ⟨r, inj2⟩
        rw [hinv] at h2
        cases r with
        | error e => simp only [hinv]; exact hTrace inj2 [] h2
        | ok inst =>
          simp only [hinv]
          rcases hd2 : lookupDep { inj2 with trace := ([] : Trace) } t with _ | d2
          · simp only [hd2]; exact hTrace inj2 [] h2
          · simp only [hd2]
            by_cases hsing : d2.type = .singleton
            · simp only [if_pos hsing]
              exact hStore { inj2 with trace := [] } t inst (hTrace inj2 [] h2)
            · simp only [if_neg hsing]
              exact hTrace inj2 [] h2
    simp only [resolveOne]
    rcases hdep : lookupDep inj t with _ | dep
    · simp only [hdep]; exact h
    · simp only [hdep]
      rcases dep with ⟨dt, dp⟩
      cases dt with
      | singleton =>
        rcases hinst : lookupInst inj t with _ | inst
        · simp only [hinst]; exact walk dp
        · simp only [hinst]; exact h
      | newInstance =>
        rcases hinst : lookupInst inj t with _ | inst <;>
          · simp only [hinst]; exact walk dp

/-- Resolution never changes the provider registry. -/
theorem resolveOne_deps (fuel : Nat) (inj : Injector) (t : GoType) :
    (resolveOne fuel inj t).2.dependencies = inj.dependencies :=
  resolveOne_preserve (fun s => s.dependencies = inj.dependencies)
    (fun _ _ h => h) (fun _ h => h) (fun _ _ _ h => h) fuel inj t rfl

/-- The heap counter never decreases along a resolution. -/
theorem resolveOne_nextId_le (fuel : Nat) (inj : Injector) (t : GoType) :
    inj.nextId ≤ (resolveOne fuel inj t).2.nextId :=
  resolveOne_preserve (fun s => inj.nextId ≤ s.nextId)
    (fun _ _ h => h) (fun s h => h.trans (Nat.le_succ s.nextId)) (fun _ _ _ h => h)
    fuel inj t le_rfl

/-- After a single-reference resolution the trace is either untouched
(fast-path and pre-invocation failures) or empty (the unconditional
`trace.Reset` after a provider invocation, or the deferred reset of a
cycle error). -/
theorem resolveOne_trace (fuel : Nat) (inj : Injector) (t : GoType) :
    (resolveOne fuel inj t).2.trace = inj.trace ∨ (resolveOne fuel inj t).2.trace = [] := by
  cases fuel with
  | zero => left; rfl
  | succ fuel =>
    simp only [resolveOne]
    rcases hdep : lookupDep inj t with _ | dep
    · left; rfl
    · rcases dep with ⟨dt, dp⟩
      have walk :
          (((match Trace.Add inj.trace t with
            | (some chain, tr) =>
              ((.error (.errCyclicDependency chain) : Except KError Instance),
                { inj with trace := tr })
            | (none, tr) =>
              match invokeWith (resolveOne fuel) { inj with trace := tr } dp with
              | (.error e, inj2) => (.error e, { inj2 with trace := [] })
              | (.ok inst, inj2) =>
                match lookupDep { inj2 with trace := [] } t with
                | some d2 =>
                  if d2.type = .singleton then
                    (.ok inst, { inj2 with trace := [], instances := (t, inst) :: inj2.instances })
                  else
                    (.ok inst, { inj2 with trace := [] })
                | none => (.ok inst, { inj2 with trace := [] })
            : (Except KError Instance) × Injector)).2.trace = inj.trace)
          ∨ (((match Trace.Add inj.trace t with
            | (some chain, tr) =>
              ((.error (.errCyclicDependency chain) : Except KError Instance),
                { inj with trace := tr })
            | (none, tr) =>
              match invokeWith (resolveOne fuel) { inj with trace := tr } dp with
              | (.error e, inj2) => (.error e, { inj2 with trace := [] })
              | (.ok inst, inj2) =>
                match lookupDep { inj2 with trace := [] } t with
                | some d2 =>
                  if d2.type = .singleton then
                    (.ok inst, { inj2 with trace := [], instances := (t, inst) :: inj2.instances })
                  else
                    (.ok inst, { inj2 with trace := [] })
                | none => (.ok inst, { inj2 with trace := [] })
            : (Except KError Instance) × Injector)).2.trace = []) := by
        rcases hadd : Trace.Add inj.trace t with ⟨err?, tr⟩
        cases err? with
        | some chain =>
          right
          simp only [hadd]
          have htr : tr = [] := by
            unfold Trace.Add at hadd
            split at hadd
            · rw [Prod.mk.injEq] at hadd
              exact hadd.2.symm
            · rw [Prod.mk.injEq] at hadd
              exact absurd hadd.1 (by simp)
          simpa using htr
        | none =>
          simp only [hadd]
          rcases hinv : invokeWith (resolveOne fuel) { inj with trace := tr } dp with ⟨r, inj2⟩
          cases r with
          | error e => right; simp only [hinv]
          | ok inst =>
            simp only [hinv]
            rcases hd2 : lookupDep { inj2 with trace := ([] : Trace) } t with _ | d2
            · right; simp only [hd2]
            · simp only [hd2]
              by_cases hsing : d2.type = .singleton
              · right; simp only [if_pos hsing]
              · right; simp only [if_neg hsing]
      cases dt with
      | singleton =>
        rcases hinst : lookupInst inj t with _ | inst
        · simp only [hinst]; exact walk
        · simp [hinst]
      | newInstance =>
        rcases hinst : lookupInst inj t with _ | inst <;>
          · simp only [hinst]; exact walk

theorem invokeWith_deps (fuel : Nat) (s : Injector) (p : Provider) :
    (invokeWith (resolveOne fuel) s p).2.dependencies = s.dependencies :=
  invokeWith_preserve (fun s' => s'.dependencies = s.dependencies)
    (fun inj t h => (resolveOne_deps fuel inj t).trans h)
    (fun _ h => h) s p rfl

/-- Complete case analysis of a fuelled single-reference resolution:
exactly one of — unregistered type, singleton cache hit, cycle detected,
provider invocation failed, successful singleton construction (cached), or
successful `New` construction (not cached). -/
theorem resolveOne_succ_spec (fuel : Nat) (inj : Injector) (t : GoType) :
    (lookupDep inj t = none ∧ resolveOne (fuel + 1) inj t = (.error (.errNoSuchProvider t), inj))
  ∨ (∃ dep i, lookupDep inj t = some dep ∧ dep.type = .singleton ∧ lookupInst inj t = some i ∧
       resolveOne (fuel + 1) inj t = (.ok i, inj))
  ∨ (∃ dep, lookupDep inj t = some dep ∧
       (dep.type = .newInstance ∨ lookupInst inj t = none) ∧
       inj.trace.contains t.str = true ∧
       resolveOne (fuel + 1) inj t =
         (.error (.errCyclicDependency (inj.trace ++ [t.str])), { inj with trace := [] }))
  ∨ (∃ dep e inj2, lookupDep inj t = some dep ∧
       (dep.type = .newInstance ∨ lookupInst inj t = none) ∧
       inj.trace.contains t.str = false ∧
       invokeWith (resolveOne fuel) { inj with trace := inj.trace ++ [t.str] } dep.provider
         = (.error e, inj2) ∧
       resolveOne (fuel + 1) inj t = (.error e, { inj2 with trace := [] }))
  ∨ (∃ dep inst inj2, lookupDep inj t = some dep ∧ dep.type = .singleton ∧
       lookupInst inj t = none ∧
       inj.trace.contains t.str = false ∧
       invokeWith (resolveOne fuel) { inj with trace := inj.trace ++ [t.str] } dep.provider
         = (.ok inst, inj2) ∧
       resolveOne (fuel + 1) inj t
         = (.ok inst, { inj2 with trace := [], instances := (t, inst) :: inj2.instances }))
  ∨ (∃ dep inst inj2, lookupDep inj t = some dep ∧ dep.type = .newInstance ∧
       inj.trace.contains t.str = false ∧
       invokeWith (resolveOne fuel) { inj with trace := inj.trace ++ [t.str] } dep.provider
         = (.ok inst, inj2) ∧
       resolveOne (fuel + 1) inj t = (.ok inst, { inj2 with trace := [] })) := by
  have hdepc : lookupDep inj t = none ∨ ∃ d, lookupDep inj t = some d := by
    cases lookupDep inj t
    · exact Or.inl rfl
    · exact Or.inr ⟨_, rfl⟩
  rcases hdepc with hdep | ⟨dep, hdep⟩
  · exact Or.inl ⟨hdep, by simp [resolveOne, hdep]⟩
  · have hfall :
        (dep.type = .newInstance ∨ lookupInst inj t = none) →
        ((∃ dep' : Dependency, lookupDep inj t = some dep' ∧
           (dep'.type = .newInstance ∨ lookupInst inj t = none) ∧
           inj.trace.contains t.str = true ∧
           resolveOne (fuel + 1) inj t =
             (.error (.errCyclicDependency (inj.trace ++ [t.str])), { inj with trace := [] }))
        ∨ (∃ dep' e inj2, lookupDep inj t = some dep' ∧
             (dep'.type = .newInstance ∨ lookupInst inj t = none) ∧
             inj.trace.contains t.str = false ∧
             invokeWith (resolveOne fuel) { inj with trace := inj.trace ++ [t.str] } dep'.provider
               = (.error e, inj2) ∧
             resolveOne (fuel + 1) inj t = (.error e, { inj2 with trace := [] }))
        ∨ (∃ dep' inst inj2, lookupDep inj t = some dep' ∧ dep'.type = .singleton ∧
             lookupInst inj t = none ∧
             inj.trace.contains t.str = false ∧
             invokeWith (resolveOne fuel) { inj with trace := inj.trace ++ [t.str] } dep'.provider
               = (.ok inst, inj2) ∧
             resolveOne (fuel + 1) inj t
               = (.ok inst, { inj2 with trace := [], instances := (t, inst) :: inj2.instances }))
        ∨ (∃ dep' inst inj2, lookupDep inj t = some dep' ∧ dep'.type = .newInstance ∧
             inj.trace.contains t.str = false ∧
             invokeWith (resolveOne fuel) { inj with trace := inj.trace ++ [t.str] } dep'.provider
               = (.ok inst, inj2) ∧
             resolveOne (fuel + 1) inj t = (.ok inst, { inj2 with trace := [] }))) := by
      intro hnc
      have hinstc : lookupInst inj t = none ∨ ∃ i, lookupInst inj t = some i := by
        cases lookupInst inj t
        · exact Or.inl rfl
        · exact Or.inr ⟨_, rfl⟩
      by_cases hmem : t.str ∈ inj.trace
      · have hc : inj.trace.contains t.str = true := by simpa using hmem
        have hadd : Trace.Add inj.trace t = (some (inj.trace ++ [t.str]), []) := by
          simp [Trace.Add, hmem]
        refine Or.inl ⟨dep, hdep, hnc, hc, ?_⟩
        rcases hnc with hnew | hnone
        · rcases hinstc with hinst | ⟨i, hinst⟩ <;>
            simp [resolveOne, hdep, hadd, hnew, hinst]
        · cases hdt : dep.type <;> simp [resolveOne, hdep, hadd, hnone, hdt]
      · have hcf : inj.trace.contains t.str = false := by simpa using hmem
        have hadd : Trace.Add inj.trace t = (none, inj.trace ++ [t.str]) := by
          simp [Trace.Add, hmem]
        rcases hinv : invokeWith (resolveOne fuel) { inj with trace := inj.trace ++ [t.str] }
            dep.provider with ⟨r, inj2⟩
        have hd2 : lookupDep { inj2 with trace := ([] : Trace) } t = some dep := by
          have h1 := invokeWith_deps fuel { inj with trace := inj.trace ++ [t.str] } dep.provider
          rw [hinv] at h1
          show lookupAssoc inj2.dependencies t = some dep
          rw [show inj2.dependencies = inj.dependencies from h1]
          exact hdep
        cases r with
        | error e =>
          refine Or.inr (Or.inl ⟨dep, e, inj2, hdep, hnc, hcf, hinv, ?_⟩)
          rcases hnc with hnew | hnone
          · rcases hinstc with hinst | ⟨i, hinst⟩ <;>
              simp [resolveOne, hdep, hadd, hinv, hnew, hinst]
          · cases hdt : dep.type <;> simp [resolveOne, hdep, hadd, hinv, hnone, hdt]
        | ok inst =>
          cases hdt : dep.type with
          | singleton =>
            rcases hnc with hnew | hnone
            · rw [hdt] at hnew; exact absurd hnew (by simp)
            · refine Or.inr (Or.inr (Or.inl ⟨dep, inst, inj2, hdep, hdt, hnone, hcf, hinv, ?_⟩))
              simp [resolveOne, hdep, hadd, hinv, hnone, hd2, hdt]
          | newInstance =>
            refine Or.inr (Or.inr (Or.inr ⟨dep, inst, inj2, hdep, hdt, hcf, hinv, ?_⟩))
            rcases hinstc with hinst | ⟨i, hinst⟩ <;>
              simp [resolveOne, hdep, hadd, hinv, hd2, hdt, hinst]
    cases hdt : dep.type with
    | singleton =>
      have hinstc : lookupInst inj t = none ∨ ∃ i, lookupInst inj t = some i := by
        cases lookupInst inj t
        · exact Or.inl rfl
        · exact Or.inr ⟨_, rfl⟩
      rcases hinstc with hinst | ⟨i, hinst⟩
      · exact Or.inr (Or.inr (hfall (Or.inr hinst)))
      · refine Or.inr (Or.inl ⟨dep, i, hdep, hdt, hinst, ?_⟩)
        simp [resolveOne, hdep, hdt, hinst]
    | newInstance =>
      exact Or.inr (Or.inr (hfall (Or.inl hdt)))

theorem lookupAssoc_cons_self {α : Type} (l : List (GoType × α)) (t : GoType) (v : α) :
    lookupAssoc ((t, v) :: l) t = some v := by
  simp [lookupAssoc]

theorem lookupAssoc_cons_ne {α : Type} (l : List (GoType × α)) (k t : GoType) (v : α)
    (h : k ≠ t) : lookupAssoc ((k, v) :: l) t = lookupAssoc l t := by
  simp [lookupAssoc, h]

/-- A cached instance survives any resolution: cache entries are never
removed, and never overwritten (a singleton store only happens after a
cache miss on that key). -/
theorem resolveOne_cachePersist :
    ∀ (fuel : Nat) (inj : Injector) (u t : GoType) (i : Instance),
      lookupInst inj t = some i → lookupInst (resolveOne fuel inj u).2 t = some i := by
  intro fuel
  induction fuel with
  | zero => intro inj u t i h; simpa [resolveOne] using h
  | succ fuel ih =>
    intro inj u t i h
    have hInv : ∀ (s : Injector) (p : Provider), lookupInst s t = some i →
        lookupInst (invokeWith (resolveOne fuel) s p).2 t = some i :=
      invokeWith_preserve (fun s => lookupInst s t = some i)
        (fun s u' hs => ih s u' t i hs) (fun _ hs => hs)
    rcases resolveOne_succ_spec fuel inj u with
      ⟨_, hres⟩ | ⟨dep, j, _, _, _, hres⟩ | ⟨dep, _, _, _, hres⟩ |
      ⟨dep, e, inj2, _, _, _, hinv, hres⟩ |
      ⟨dep, inst, inj2, hdep, hsing, hnone, _, hinv, hres⟩ |
      ⟨dep, inst, inj2, _, _, _, hinv, hres⟩
    · rw [hres]; exact h
    · rw [hres]; exact h
    · rw [hres]; exact h
    · rw [hres]
      have h2 := hInv { inj with trace := inj.trace ++ [u.str] } dep.provider h
      rw [hinv] at h2
      exact h2
    · rw [hres]
      have h2 := hInv { inj with trace := inj.trace ++ [u.str] } dep.provider h
      rw [hinv] at h2
      have hne : u ≠ t := by
        intro heq
        rw [heq] at hnone
        rw [hnone] at h
        exact Option.noConfusion h
      show lookupAssoc ((u, inst) :: inj2.instances) t = some i
      rw [lookupAssoc_cons_ne inj2.instances u t inst hne]
      exact h2
    · rw [hres]
      have h2 := hInv { inj with trace := inj.trace ++ [u.str] } dep.provider h
      rw [hinv] at h2
      exact h2

/-- Resolution never touches the cache entry of a `New`-policy key: cache
stores happen only for singleton keys. -/
theorem resolveOne_newKey_frame :
    ∀ (fuel : Nat) (inj : Injector) (u t : GoType) (d : Dependency),
      lookupDep inj t = some d → d.type = .newInstance →
      lookupInst (resolveOne fuel inj u).2 t = lookupInst inj t := by
  intro fuel
  induction fuel with
  | zero => intro inj u t d _ _; simp [resolveOne]
  | succ fuel ih =>
    intro inj u t d hd hdnew
    have hInv : ∀ (s : Injector) (p : Provider),
        (lookupInst s t = lookupInst inj t ∧ s.dependencies = inj.dependencies) →
        (lookupInst (invokeWith (resolveOne fuel) s p).2 t = lookupInst inj t ∧
          (invokeWith (resolveOne fuel) s p).2.dependencies = inj.dependencies) :=
      invokeWith_preserve
        (fun s => lookupInst s t = lookupInst inj t ∧ s.dependencies = inj.dependencies)
        (fun s u' hs => by
          have hds : lookupDep s t = some d := by
            show lookupAssoc s.dependencies t = some d
            rw [hs.2]; exact hd
          exact ⟨(ih s u' t d hds hdnew).trans hs.1,
            (resolveOne_deps fuel s u').trans hs.2⟩)
        (fun _ hs => hs)
    rcases resolveOne_succ_spec fuel inj u with
      ⟨_, hres⟩ | ⟨dep, j, _, _, _, hres⟩ | ⟨dep, _, _, _, hres⟩ |
      ⟨dep, e, inj2, _, _, _, hinv, hres⟩ |
      ⟨dep, inst, inj2, hdep, hsing, hnone, _, hinv, hres⟩ |
      ⟨dep, inst, inj2, _, _, _, hinv, hres⟩
    · rw [hres]
    · rw [hres]
    · rw [hres]; rfl
    · rw [hres]
      have h2 := hInv { inj with trace := inj.trace ++ [u.str] } dep.provider ⟨rfl, rfl⟩
      rw [hinv] at h2
      exact h2.1
    · rw [hres]
      have h2 := hInv { inj with trace := inj.trace ++ [u.str] } dep.provider ⟨rfl, rfl⟩
      rw [hinv] at h2
      have hne : u ≠ t := by
        intro heq
        rw [heq] at hdep
        rw [hd] at hdep
        have hdd : d = dep := by injection hdep
        rw [← hdd, hdnew] at hsing
        exact InstanceType.noConfusion hsing
      show lookupAssoc ((u, inst) :: inj2.instances) t = lookupInst inj t
      rw [lookupAssoc_cons_ne inj2.instances u t inst hne]
      exact h2.1
    · rw [hres]
      have h2 := hInv { inj with trace := inj.trace ++ [u.str] } dep.provider ⟨rfl, rfl⟩
      rw [hinv] at h2
      exact h2.1

theorem resolveList_err_head {R : Injector → GoType → (Except KError Instance) × Injector}
    {inj : Injector} {t : GoType} {e : KError} (rest : List GoType)
    (h : (R inj t).1 = .error e) :
    (resolveList R inj (t :: rest)).1 = .error e := by
  rcases h2 : R inj t with ⟨r, s⟩
  rw [h2] at h
  simp only at h
  subst h
  rw [resolveList_cons_err rest h2]

/-- If a `New`-policy type is not on the trace and its provider invocation
fails, the single-reference resolution reports that failure. -/
theorem resolveOne_err1_step (fuel : Nat) (inj : Injector) (t : GoType) (dep : Dependency)
    (e : KError)
    (hdep : lookupDep inj t = some dep) (hnew : dep.type = .newInstance)
    (hcf : inj.trace.contains t.str = false)
    (hinv : (invokeWith (resolveOne fuel) { inj with trace := inj.trace ++ [t.str] }
      dep.provider).1 = .error e) :
    (resolveOne (fuel + 1) inj t).1 = .error e := by
  rcases hinv0 : invokeWith (resolveOne fuel) { inj with trace := inj.trace ++ [t.str] }
      dep.provider with ⟨r, inj2⟩
  rw [hinv0] at hinv
  simp only at hinv
  subst hinv
  rcases resolveOne_succ_spec fuel inj t with
    ⟨hd0, _⟩ | ⟨dep', i, hd', hs', _, _⟩ | ⟨dep', hd', _, hc', _⟩ |
    ⟨dep', e', inj2', hd', _, _, hinv', hres⟩ |
    ⟨dep', inst, inj2', hd', hs', _, _, _, _⟩ |
    ⟨dep', inst, inj2', hd', _, _, hinv', hres⟩
  · rw [hdep] at hd0; exact Option.noConfusion hd0
  · rw [hdep] at hd'
    have hde : dep = dep' := by injection hd'
    rw [← hde, hnew] at hs'
    exact InstanceType.noConfusion hs'
  · rw [hc'] at hcf; exact Bool.noConfusion hcf
  · rw [hdep] at hd'
    have hde : dep = dep' := by injection hd'
    rw [← hde, hinv0] at hinv'
    rw [Prod.mk.injEq] at hinv'
    have he : e = e' := by
      have h3 := hinv'.1
      injection h3
    rw [hres, ← he]
  · rw [hdep] at hd'
    have hde : dep = dep' := by injection hd'
    rw [← hde, hnew] at hs'
    exact InstanceType.noConfusion hs'
  · rw [hdep] at hd'
    have hde : dep = dep' := by injection hd'
    rw [← hde, hinv0] at hinv'
    rw [Prod.mk.injEq] at hinv'
    exact Except.noConfusion hinv'.1

/-- In the repository's own cyclic-sibling registry, resolving `DepD`
(whose chain is `DepD → DepC → DepA → (DepB, DepD)`) never terminates:
after the sibling `DepB` completes, the unconditional `trace.Reset` has
emptied the trace, so the re-entry into `DepD` is never seen as a cycle. -/
theorem cycD_diverges : ∀ (f n : Nat), (resolveOne f (cycInj n) tD).1 = .error .outOfFuel := by
  intro f
  induction f using Nat.strong_induction_on with
  | _ f ih =>
    match f with
    | 0 => intro n; rfl
    | 1 => intro n; rfl
    | 2 => intro n; rfl
    | 3 => intro n; rfl
    | (g + 4) =>
      intro n
      have hB : resolveOne (g + 1) ⟨cycReg, [], ["DepD", "DepC", "DepA"], n⟩ tB
          = (.ok n, ⟨cycReg, [], [], n + 1⟩) := rfl
      have hDin : (resolveOne (g + 1) (cycInj (n + 1)) tD).1 = .error .outOfFuel :=
        ih (g + 1) (by omega) (n + 1)
      have hA : (resolveOne (g + 2) ⟨cycReg, [], ["DepD", "DepC"], n⟩ tA).1
          = .error .outOfFuel := by
        apply resolveOne_err1_step (g + 1) ⟨cycReg, [], ["DepD", "DepC"], n⟩ tA
          ⟨.newInstance, freshP [tB, tD]⟩ .outOfFuel rfl rfl rfl
        apply invokeWith_err
        exact resolveList_err2 [tD] hB (resolveList_err_head [] hDin)
      have hC : (resolveOne (g + 3) ⟨cycReg, [], ["DepD"], n⟩ tC).1 = .error .outOfFuel := by
        apply resolveOne_err1_step (g + 2) ⟨cycReg, [], ["DepD"], n⟩ tC
          ⟨.newInstance, freshP [tA]⟩ .outOfFuel rfl rfl rfl
        apply invokeWith_err
        exact resolveList_err_head [] hA
      apply resolveOne_err1_step (g + 3) (cycInj n) tD
        ⟨.newInstance, freshP [tC]⟩ .outOfFuel rfl rfl rfl
      apply invokeWith_err
      exact resolveList_err_head [] hC
/-- A batched `Resolve` started with an empty trace leaves the trace empty,
whatever the outcome. -/
theorem Resolve_trace_empty (fuel : Nat) :
    ∀ (items : List GoType) (inj : Injector), inj.trace = [] →
      (Resolve fuel inj items).2.1.trace = [] := by
  intro items
  induction items with
  | nil => intro inj h; simpa [Resolve] using h
  | cons t rest ih =>
    intro inj h
    simp only [Resolve]
    rcases h1 : resolveOne fuel inj t with ⟨r, inj'⟩
    have htr : inj'.trace = [] := by
      have h2 := resolveOne_trace fuel inj t
      rw [h1] at h2
      simp only at h2
      rcases h2 with h2 | h2
      · rw [h2, h]
      · exact h2
    cases r with
    | error e => simpa using htr
    | ok i =>
      simp only
      rcases h2 : Resolve fuel inj' rest with ⟨err, inj2, slots⟩
      have h3 := ih inj' htr
      rw [h2] at h3
      simpa using h3

/-- A batched `Resolve` that reports no error wrote every slot. -/
theorem Resolve_none_slots (fuel : Nat) :
    ∀ (items : List GoType) (inj : Injector), (Resolve fuel inj items).1 = none →
      ∀ s ∈ (Resolve fuel inj items).2.2, s.isSome := by
  intro items
  induction items with
  | nil => intro inj _ s hs; simp [Resolve] at hs
  | cons t rest ih =>
    intro inj h s hs
    rcases h1 : resolveOne fuel inj t with ⟨r, inj'⟩
    cases r with
    | error e =>
      rw [show Resolve fuel inj (t :: rest)
          = (some e, inj', none :: rest.map (fun _ => none)) from by simp [Resolve, h1]] at h
      exact Option.noConfusion h
    | ok i =>
      rcases h2 : Resolve fuel inj' rest with ⟨err, inj2, slots⟩
      rw [show Resolve fuel inj (t :: rest) = (err, inj2, some i :: slots) from by
        simp [Resolve, h1, h2]] at h hs
      simp only at h hs
      cases hs with
      | head => rfl
      | tail _ hs =>
        have h3 := ih inj' (by rw [h2]; exact h) s
        rw [h2] at h3
        exact h3 hs
/-- A fresh-allocating provider that is invoked returns an instance at least
as new as the starting heap counter, and strictly below the final one. -/
theorem invokeWith_fresh_out {R : Injector → GoType → (Except KError Instance) × Injector}
    (s : Injector) (p : Provider) (i : Instance) (s2 : Injector)
    (hfresh : p.behavior = .fresh)
    (hmono : ∀ (inj : Injector) (t : GoType), inj.nextId ≤ (R inj t).2.nextId)
    (hinv : invokeWith R s p = (.ok i, s2)) :
    s.nextId ≤ i ∧ i < s2.nextId := by
  unfold invokeWith at hinv
  rcases h1 : resolveList R s p.params with ⟨r, s'⟩
  rw [h1] at hinv
  have hle : s.nextId ≤ s'.nextId := by
    have h2 := resolveList_preserve (fun x => s.nextId ≤ x.nextId)
      (fun inj t h => h.trans (hmono inj t)) p.params s le_rfl
    rw [h1] at h2
    exact h2
  cases r with
  | error e =>
    simp only at hinv
    rw [Prod.mk.injEq] at hinv
    exact Except.noConfusion hinv.1
  | ok is =>
    rw [hfresh] at hinv
    simp only at hinv
    rw [Prod.mk.injEq] at hinv
    have hi : s'.nextId = i := by
      have h3 := hinv.1
      injection h3
    rw [← hinv.2, ← hi]
    exact ⟨hle, Nat.lt_succ_self s'.nextId⟩

/-- A successful `New`-policy resolution returns a strictly fresh instance:
at least the starting heap counter, strictly below the final one. -/
theorem resolveOne_new_fresh (fuel : Nat) (inj : Injector) (t : GoType) (dep : Dependency)
    (i : Instance) (inj' : Injector)
    (hdep : lookupDep inj t = some dep) (hnew : dep.type = .newInstance)
    (hfresh : dep.provider.behavior = .fresh)
    (hres : resolveOne fuel inj t = (.ok i, inj')) :
    inj.nextId ≤ i ∧ i < inj'.nextId := by
  cases fuel with
  | zero =>
    rw [show resolveOne 0 inj t = (.error .outOfFuel, inj) from rfl, Prod.mk.injEq] at hres
    exact Except.noConfusion hres.1
  | succ fuel =>
    rcases resolveOne_succ_spec fuel inj t with
      ⟨hd0, _⟩ | ⟨dep', j, hd', hs', _, _⟩ | ⟨dep', _, _, _, hres'⟩ |
      ⟨dep', e, inj2, _, _, _, _, hres'⟩ |
      ⟨dep', inst, inj2, hd', hs', _, _, _, _⟩ |
      ⟨dep', inst, inj2, hd', _, _, hinv', hres'⟩
    · rw [hdep] at hd0; exact Option.noConfusion hd0
    · rw [hdep] at hd'
      have hde : dep = dep' := by injection hd'
      rw [← hde, hnew] at hs'
      exact InstanceType.noConfusion hs'
    · rw [hres'] at hres
      rw [Prod.mk.injEq] at hres
      exact Except.noConfusion hres.1
    · rw [hres'] at hres
      rw [Prod.mk.injEq] at hres
      exact Except.noConfusion hres.1
    · rw [hdep] at hd'
      have hde : dep = dep' := by injection hd'
      rw [← hde, hnew] at hs'
      exact InstanceType.noConfusion hs'
    · rw [hdep] at hd'
      have hde : dep = dep' := by injection hd'
      rw [hres', Prod.mk.injEq] at hres
      have hinst : inst = i := by
        have h3 := hres.1
        injection h3
      have hout := invokeWith_fresh_out { inj with trace := inj.trace ++ [t.str] }
        dep'.provider inst inj2 (by rw [← hde]; exact hfresh)
        (fun s u => resolveOne_nextId_le fuel s u) hinv'
      rw [← hres.2, ← hinst]
      exact ⟨hout.1, hout.2⟩

/-- Invoking a parameterless, non-failing provider always succeeds. -/
theorem invokeWith_nil_ok (R : Injector → GoType → (Except KError Instance) × Injector)
    (s : Injector) (p : Provider) (hp : p.params = []) (hb : p.behavior ≠ .fail) :
    ∃ (i : Instance) (s2 : Injector), invokeWith R s p = (.ok i, s2) := by
  unfold invokeWith
  rw [hp]
  cases hbe : p.behavior with
  | fresh => exact ⟨s.nextId, { s with nextId := s.nextId + 1 }, by simp [resolveList]⟩
  | const i => exact ⟨i, s, by simp [resolveList]⟩
  | fail => exact absurd hbe hb

/-- Resolution of a registered type with a parameterless, non-failing
provider succeeds when the trace is empty. -/
theorem resolveOne_succeeds (f : Nat) (s : Injector) (u : GoType) (dep : Dependency)
    (ht : s.trace = []) (hdep : lookupDep s u = some dep)
    (hparams : dep.provider.params = []) (hbeh : dep.provider.behavior ≠ .fail) :
    ∃ (i : Instance) (inj2 : Injector), resolveOne (f + 1) s u = (.ok i, inj2) := by
  rcases resolveOne_succ_spec f s u with
    ⟨hd0, _⟩ | ⟨dep', j, _, _, _, hres'⟩ | ⟨dep', _, _, hc', _⟩ |
    ⟨dep', e, inj2, hd', _, _, hinv', _⟩ |
    ⟨dep', inst, inj2, _, _, _, _, _, hres'⟩ |
    ⟨dep', inst, inj2, _, _, _, _, hres'⟩
  · rw [hdep] at hd0; exact Option.noConfusion hd0
  · exact ⟨j, s, hres'⟩
  · rw [ht] at hc'
    simp at hc'
  · rw [hdep] at hd'
    have hde : dep = dep' := by injection hd'
    obtain ⟨i, s2, hok⟩ := invokeWith_nil_ok (resolveOne f)
      { s with trace := s.trace ++ [u.str] } dep'.provider
      (by rw [← hde]; exact hparams) (by rw [← hde]; exact hbeh)
    rw [hok, Prod.mk.injEq] at hinv'
    exact Except.noConfusion hinv'.1
  · exact ⟨inst, _, hres'⟩
  · exact ⟨inst, _, hres'⟩

/-! ### Claim theorems -/

/-- C1: for a type registered with `Singleton` policy, the first successful
resolution stores the constructed instance in the instance cache; a
resolution that finds a cached instance returns exactly that instance and
leaves the injector completely unchanged (so the provider is not invoked);
and a cache entry survives every later resolution, so every later
resolution of the type yields the identical instance. -/
theorem singleton_resolved_once_and_cached :
    (∀ (fuel : Nat) (inj : Injector) (t : GoType) (dep : Dependency) (i : Instance)
        (inj' : Injector),
        lookupDep inj t = some dep → dep.type = .singleton →
        resolveOne fuel inj t = (.ok i, inj') → lookupInst inj' t = some i)
  ∧ (∀ (fuel : Nat) (inj : Injector) (t : GoType) (dep : Dependency) (i : Instance),
        lookupDep inj t = some dep → dep.type = .singleton →
        lookupInst inj t = some i → resolveOne (fuel + 1) inj t = (.ok i, inj))
  ∧ (∀ (fuel : Nat) (inj : Injector) (u t : GoType) (i : Instance),
        lookupInst inj t = some i → lookupInst (resolveOne fuel inj u).2 t = some i) := by
  refine ⟨?_, ?_, fun fuel inj u t i h => resolveOne_cachePersist fuel inj u t i h⟩
  · intro fuel inj t dep i inj' hdep hsing hres
    cases fuel with
    | zero =>
      rw [show resolveOne 0 inj t = (.error .outOfFuel, inj) from rfl, Prod.mk.injEq] at hres
      exact Except.noConfusion hres.1
    | succ fuel =>
      rcases resolveOne_succ_spec fuel inj t with
        ⟨hd0, _⟩ | ⟨dep', j, hd', hs', hi', hres'⟩ | ⟨dep', _, _, _, hres'⟩ |
        ⟨dep', e, inj2, _, _, _, _, hres'⟩ |
        ⟨dep', inst, inj2, hd', hs', _, _, _, hres'⟩ |
        ⟨dep', inst, inj2, hd', hnew', _, _, hres'⟩
      · rw [hdep] at hd0; exact Option.noConfusion hd0
      · rw [hres', Prod.mk.injEq] at hres
        have hji : j = i := by
          have h3 := hres.1
          injection h3
        rw [← hres.2, ← hji]
        exact hi'
      · rw [hres', Prod.mk.injEq] at hres
        exact Except.noConfusion hres.1
      · rw [hres', Prod.mk.injEq] at hres
        exact Except.noConfusion hres.1
      · rw [hres', Prod.mk.injEq] at hres
        have hji : inst = i := by
          have h3 := hres.1
          injection h3
        rw [← hres.2, ← hji]
        show lookupAssoc ((t, inst) :: inj2.instances) t = some inst
        exact lookupAssoc_cons_self inj2.instances t inst
      · rw [hdep] at hd'
        have hde : dep = dep' := by injection hd'
        rw [← hde, hsing] at hnew'
        exact InstanceType.noConfusion hnew'
  · intro fuel inj t dep i hdep hsing hinst
    simp [resolveOne, hdep, hsing, hinst]

/-- Witness for C1 on a concrete singleton registry: resolving `tA` caches
instance `0`, and a second resolution returns `0` with the state unchanged. -/
theorem singleton_resolved_once_and_cached_witness :
    lookupDep singletonInj tA = some ⟨.singleton, freshP []⟩
  ∧ resolveOne 5 singletonInj tA = (.ok 0, singletonInjResolved)
  ∧ lookupInst singletonInjResolved tA = some 0
  ∧ resolveOne 5 singletonInjResolved tA = (.ok 0, singletonInjResolved)
  ∧ lookupInst (resolveOne 7 singletonInjResolved tB).2 tA = some 0 :=
  ⟨rfl, rfl,
    singleton_resolved_once_and_cached.1 5 singletonInj tA ⟨.singleton, freshP []⟩ 0
      singletonInjResolved rfl rfl rfl,
    singleton_resolved_once_and_cached.2.1 4 singletonInjResolved tA ⟨.singleton, freshP []⟩ 0
      rfl rfl rfl,
    singleton_resolved_once_and_cached.2.2 7 singletonInjResolved tB tA 0 rfl⟩

/-- C2 (code behaviour at the repository's own cyclic test fixture):
resolving `DepA` in the registry `DepA → (DepB, DepD)`, `DepD → DepC`,
`DepC → DepA` exhausts any amount of fuel — the re-entry into `DepA` is
never reported as a cycle, because after the sibling `DepB` completes the
unconditional `trace.Reset` has emptied the trace (second conjunct: with
`DepA` pushed, resolving `DepB` returns with an empty trace). -/
theorem cyclic_sibling_never_detected :
    (∀ (f n : Nat), (resolveOne f (cycInj n) tA).1 = .error .outOfFuel)
  ∧ (∀ (f n : Nat), resolveOne (f + 1) (cycInjA n) tB = (.ok n, ⟨cycReg, [], [], n + 1⟩)) := by
  constructor
  · intro f
    match f with
    | 0 => intro n; rfl
    | 1 => intro n; rfl
    | (g + 2) =>
      intro n
      have hB : resolveOne (g + 1) ⟨cycReg, [], ["DepA"], n⟩ tB
          = (.ok n, ⟨cycReg, [], [], n + 1⟩) := rfl
      have hD : (resolveOne (g + 1) (cycInj (n + 1)) tD).1 = .error .outOfFuel :=
        cycD_diverges (g + 1) (n + 1)
      apply resolveOne_err1_step (g + 1) (cycInj n) tA ⟨.newInstance, freshP [tB, tD]⟩
        .outOfFuel rfl rfl rfl
      apply invokeWith_err
      exact resolveList_err2 [tD] hB (resolveList_err_head [] hD)
  · intro f n
    rfl

/-- C3 counterexample: with `DepX → DepA → DepB → DepA` (all `New`),
resolving `DepX` reports the chain `[DepX, DepA, DepB, DepA]`, which starts
before the first occurrence of the repeated key `DepA` — the payload is the
whole in-flight trace, not the chain from the first occurrence. -/
theorem cycle_chain_counterexample :
    (resolveOne 10 outerInj tX).1
      = .error (.errCyclicDependency ["DepX", "DepA", "DepB", "DepA"])
  ∧ chainFromFirstOccurrence ["DepX", "DepA", "DepB", "DepA"] "DepA"
      = ["DepA", "DepB", "DepA"]
  ∧ ["DepX", "DepA", "DepB", "DepA"] ≠ ["DepA", "DepB", "DepA"] :=
  ⟨rfl, by decide, by decide⟩

/-- C3 amended: on a cyclic push the repeated key is appended before the
error is produced, and the payload is the entire current trace followed by
the repeated key; in particular, for `A → B → A` resolving `A` reports
`[A, B, A]` (and the trace is reset). -/
theorem cycle_error_payload_full_chain :
    (∀ (tr : Trace) (t : GoType), tr.contains t.str = true →
        Trace.Add tr t = (some (tr ++ [t.str]), []))
  ∧ (resolveOne 10 mutualInj tA).1 = .error (.errCyclicDependency ["DepA", "DepB", "DepA"])
  ∧ (resolveOne 10 mutualInj tA).2.trace = [] := by
  refine ⟨?_, rfl, rfl⟩
  intro tr t h
  have hmem : t.str ∈ tr := by simpa using h
  simp [Trace.Add, hmem]

/-- Witness for the amended C3 at a concrete trace and key. -/
theorem cycle_error_payload_full_chain_witness :
    (["DepA", "DepB"] : Trace).contains tA.str = true
  ∧ Trace.Add ["DepA", "DepB"] tA = (some ["DepA", "DepB", "DepA"], []) :=
  ⟨by decide, cycle_error_payload_full_chain.1 ["DepA", "DepB"] tA (by decide)⟩

/-- C4: for a type registered with `New` policy and a fresh-allocating
constructor, two successive resolutions yield observably distinct
instances, and the result is never cached (the cache entry for the type is
untouched). -/
theorem new_policy_resolves_distinct :
    ∀ (fuel fuel' : Nat) (inj : Injector) (t : GoType) (dep : Dependency)
      (i1 i2 : Instance) (inj1 inj2 : Injector),
      lookupDep inj t = some dep → dep.type = .newInstance →
      dep.provider.behavior = .fresh →
      resolveOne fuel inj t = (.ok i1, inj1) →
      resolveOne fuel' inj1 t = (.ok i2, inj2) →
      i1 ≠ i2 ∧ lookupInst inj1 t = lookupInst inj t := by
  intro fuel fuel' inj t dep i1 i2 inj1 inj2 hdep hnew hfresh hres1 hres2
  have hdep1 : lookupDep inj1 t = some dep := by
    have h1 := resolveOne_deps fuel inj t
    rw [hres1] at h1
    show lookupAssoc inj1.dependencies t = some dep
    rw [show inj1.dependencies = inj.dependencies from h1]
    exact hdep
  have f1 := resolveOne_new_fresh fuel inj t dep i1 inj1 hdep hnew hfresh hres1
  have f2 := resolveOne_new_fresh fuel' inj1 t dep i2 inj2 hdep1 hnew hfresh hres2
  constructor
  · exact Nat.ne_of_lt (Nat.lt_of_lt_of_le f1.2 f2.1)
  · have h3 := resolveOne_newKey_frame fuel inj t t dep hdep hnew
    rw [hres1] at h3
    exact h3

/-- Witness for C4: two resolutions of a dependency-free `New` registration
allocate `0` and then `1`. -/
theorem new_policy_resolves_distinct_witness :
    resolveOne 5 newInj tA = (.ok 0, ⟨newInj.dependencies, [], [], 1⟩)
  ∧ resolveOne 5 (⟨newInj.dependencies, [], [], 1⟩ : Injector) tA
      = (.ok 1, ⟨newInj.dependencies, [], [], 2⟩)
  ∧ ((0 : Instance) ≠ 1 ∧ lookupInst (⟨newInj.dependencies, [], [], 1⟩ : Injector) tA
      = lookupInst newInj tA) :=
  ⟨rfl, rfl,
    new_policy_resolves_distinct 5 5 newInj tA ⟨.newInstance, freshP []⟩ 0 1
      ⟨newInj.dependencies, [], [], 1⟩ ⟨newInj.dependencies, [], [], 2⟩
      rfl rfl rfl rfl rfl⟩

/-- C5: a top-level `Resolve` started with an empty trace leaves the trace
empty whatever its outcome (success, provider failure, or cyclic failure),
and afterwards any registered type with a parameterless, non-failing
provider still resolves successfully on the same injector. -/
theorem trace_resets_after_toplevel_resolve :
    ∀ (fuel : Nat) (items : List GoType) (inj : Injector), inj.trace = [] →
      (Resolve fuel inj items).2.1.trace = []
    ∧ (∀ (f : Nat) (u : GoType) (dep : Dependency),
        lookupDep (Resolve fuel inj items).2.1 u = some dep →
        dep.provider.params = [] → dep.provider.behavior ≠ .fail →
        ∃ (i : Instance) (inj2 : Injector),
          resolveOne (f + 1) (Resolve fuel inj items).2.1 u = (.ok i, inj2)) := by
  intro fuel items inj h
  have hEmpty := Resolve_trace_empty fuel items inj h
  exact ⟨hEmpty, fun f u dep hdep hp hb =>
    resolveOne_succeeds f (Resolve fuel inj items).2.1 u dep hEmpty hdep hp hb⟩

/-- Witness for C5: after a cyclic failure resolving `tA` in the mutual
cycle, the trace is empty and the unrelated acyclic `tC` still resolves. -/
theorem trace_resets_after_toplevel_resolve_witness :
    mutualPlusInj.trace = []
  ∧ (Resolve 10 mutualPlusInj [tA]).1
      = some (.errCyclicDependency ["DepA", "DepB", "DepA"])
  ∧ (Resolve 10 mutualPlusInj [tA]).2.1.trace = []
  ∧ (∃ (i : Instance) (inj2 : Injector),
      resolveOne 1 (Resolve 10 mutualPlusInj [tA]).2.1 tC = (.ok i, inj2)) :=
  ⟨rfl, rfl, (trace_resets_after_toplevel_resolve 10 [tA] mutualPlusInj rfl).1,
    (trace_resets_after_toplevel_resolve 10 [tA] mutualPlusInj rfl).2 0 tC
      ⟨.newInstance, freshP []⟩ rfl rfl (by decide)⟩

/-- C6: a batched `Resolve` processes its references left to right and
stops at the first failure: there is a position `k` whose prefix fully
succeeded (every earlier slot was written and keeps its value), the
reference at `k` fails with the reported error, the final injector is
exactly the one produced by that failed resolution (no later reference is
processed), and every slot from `k` on is unwritten. -/
theorem resolve_stops_at_first_failure :
    ∀ (fuel : Nat) (items : List GoType) (inj : Injector) (e : KError),
      (Resolve fuel inj items).1 = some e →
      ∃ (k : Nat) (t : GoType), items[k]? = some t
        ∧ (Resolve fuel inj (items.take k)).1 = none
        ∧ (∀ s ∈ (Resolve fuel inj (items.take k)).2.2, s.isSome)
        ∧ (resolveOne fuel (Resolve fuel inj (items.take k)).2.1 t).1 = .error e
        ∧ (Resolve fuel inj items).2.1
            = (resolveOne fuel (Resolve fuel inj (items.take k)).2.1 t).2
        ∧ (Resolve fuel inj items).2.2
            = (Resolve fuel inj (items.take k)).2.2
              ++ none :: (items.drop (k + 1)).map (fun _ => none) := by
  intro fuel items
  induction items with
  | nil => intro inj e h; simp [Resolve] at h
  | cons t0 rest ih =>
    intro inj e h
    rcases h1 : resolveOne fuel inj t0 with ⟨r, inj'⟩
    cases r with
    | error e0 =>
      have hEq : Resolve fuel inj (t0 :: rest)
          = (some e0, inj', none :: rest.map (fun _ => none)) := by
        simp [Resolve, h1]
      rw [hEq] at h
      simp only at h
      have he : e0 = e := by injection h
      subst he
      refine ⟨0, t0, by simp, by rfl, ?_, ?_, ?_, ?_⟩
      · intro s hs
        simp [Resolve] at hs
      · show (resolveOne fuel inj t0).1 = .error e0
        rw [h1]
      · rw [hEq]
        show inj' = (resolveOne fuel inj t0).2
        rw [h1]
      · rw [hEq]
        simp [Resolve]
    | ok i =>
      rcases h2 : Resolve fuel inj' rest with ⟨err, inj2, slots⟩
      have hEq : Resolve fuel inj (t0 :: rest) = (err, inj2, some i :: slots) := by
        simp [Resolve, h1, h2]
      rw [hEq] at h
      simp only at h
      obtain ⟨k, t, hk, hpre, hslots, hfail, hinj, hslots2⟩ :=
        ih inj' e (by rw [h2]; exact h)
      rw [h2] at hinj hslots2
      simp only at hinj hslots2
      rcases h3 : Resolve fuel inj' (rest.take k) with ⟨perr, pinj, pslots⟩
      rw [h3] at hpre hslots hfail hinj hslots2
      simp only at hpre hslots hfail hinj hslots2
      subst hpre
      have hPre2 : Resolve fuel inj ((t0 :: rest).take (k + 1))
          = (none, pinj, some i :: pslots) := by
        rw [List.take_succ_cons]
        simp [Resolve, h1, h3]
      refine ⟨k + 1, t, ?_, ?_, ?_, ?_, ?_, ?_⟩
      · simpa using hk
      · rw [hPre2]
      · rw [hPre2]
        intro s hs
        simp only at hs
        cases hs with
        | head => rfl
        | tail _ hs => exact hslots s hs
      · rw [hPre2]
        exact hfail
      · rw [hEq, hPre2]
        exact hinj
      · rw [hEq, hPre2]
        show some i :: slots
            = (some i :: pslots) ++ none :: ((t0 :: rest).drop (k + 1 + 1)).map (fun _ => none)
        rw [List.drop_succ_cons, hslots2]
        rfl

/-- Witness for C6: in the batch `[tA, tU, tA]` on a registry knowing only
`tA`, the failure is at position 1 (`tU` unregistered). -/
theorem resolve_stops_at_first_failure_witness :
    (Resolve 10 newInj [tA, tU, tA]).1 = some (.errNoSuchProvider tU)
  ∧ (∃ (k : Nat) (t : GoType), ([tA, tU, tA])[k]? = some t
      ∧ (Resolve 10 newInj (([tA, tU, tA]).take k)).1 = none
      ∧ (∀ s ∈ (Resolve 10 newInj (([tA, tU, tA]).take k)).2.2, s.isSome)
      ∧ (resolveOne 10 (Resolve 10 newInj (([tA, tU, tA]).take k)).2.1 t).1
          = .error (.errNoSuchProvider tU)
      ∧ (Resolve 10 newInj [tA, tU, tA]).2.1
          = (resolveOne 10 (Resolve 10 newInj (([tA, tU, tA]).take k)).2.1 t).2
      ∧ (Resolve 10 newInj [tA, tU, tA]).2.2
          = (Resolve 10 newInj (([tA, tU, tA]).take k)).2.2
            ++ none :: (([tA, tU, tA]).drop (k + 1)).map (fun _ => none)) :=
  ⟨rfl, resolve_stops_at_first_failure 10 [tA, tU, tA] newInj (.errNoSuchProvider tU) rfl⟩

/-- The successful registration produced by `ProvideNew` is exactly the
input injector with the new entry prepended. -/
theorem ProvideNew_ok_shape (inj : Injector) (t : GoType) (p : Provider) (inj' : Injector)
    (h : ProvideNew inj t p = .ok inj') :
    inj' = { inj with dependencies := (t, ⟨.newInstance, p⟩) :: inj.dependencies } := by
  unfold ProvideNew at h
  by_cases hd : (lookupDep inj t).isSome
  · rw [if_pos hd] at h
    exact Except.noConfusion h
  · rw [if_neg hd] at h
    rcases hv : ValidateProvider p with _ | e2
    · rw [hv] at h
      injection h with h2
      exact h2.symm
    · rw [hv] at h
      exact Except.noConfusion h

/-- C7: a clone inherits every provider entry and every cached singleton
instance with a fresh empty trace; resolving an already-cached singleton on
the clone yields the identical shared instance without touching the clone;
a type registered only on the clone after cloning resolves there but still
fails with `ErrNoSuchProvider` on the unchanged original; and a type
registered on the original after cloning resolves there but still fails on
the unchanged clone. -/
theorem clone_inherits_and_isolates :
    (∀ (inj : Injector), (Clone inj).dependencies = inj.dependencies
      ∧ (Clone inj).instances = inj.instances ∧ (Clone inj).trace = [])
  ∧ (∀ (inj : Injector) (t : GoType) (dep : Dependency) (i : Instance) (fuel : Nat),
      lookupDep inj t = some dep → dep.type = .singleton → lookupInst inj t = some i →
      resolveOne (fuel + 1) (Clone inj) t = (.ok i, Clone inj))
  ∧ (∀ (inj : Injector) (t : GoType) (p : Provider) (cl' : Injector) (fuel : Nat),
      lookupDep inj t = none → ProvideNew (Clone inj) t p = .ok cl' →
      lookupDep cl' t = some ⟨.newInstance, p⟩
      ∧ resolveOne (fuel + 1) inj t = (.error (.errNoSuchProvider t), inj))
  ∧ (∀ (inj : Injector) (t : GoType) (p : Provider) (inj2 : Injector) (fuel : Nat),
      lookupDep inj t = none → ProvideNew inj t p = .ok inj2 →
      lookupDep inj2 t = some ⟨.newInstance, p⟩
      ∧ resolveOne (fuel + 1) (Clone inj) t = (.error (.errNoSuchProvider t), Clone inj)) := by
  refine ⟨fun inj => ⟨rfl, rfl, rfl⟩, ?_, ?_, ?_⟩
  · intro inj t dep i fuel hdep hsing hinst
    have hd : lookupDep (Clone inj) t = some dep := hdep
    have hi : lookupInst (Clone inj) t = some i := hinst
    simp [resolveOne, hd, hsing, hi]
  · intro inj t p cl' fuel hdep hok
    constructor
    · rw [ProvideNew_ok_shape (Clone inj) t p cl' hok]
      exact lookupAssoc_cons_self (Clone inj).dependencies t ⟨.newInstance, p⟩
    · simp [resolveOne, hdep]
  · intro inj t p inj2 fuel hdep hok
    constructor
    · rw [ProvideNew_ok_shape inj t p inj2 hok]
      exact lookupAssoc_cons_self inj.dependencies t ⟨.newInstance, p⟩
    · have hd : lookupDep (Clone inj) t = none := hdep
      simp [resolveOne, hd]

/-- Witness for C7 at concrete registries. -/
theorem clone_inherits_and_isolates_witness :
    ((Clone singletonInjResolved).dependencies = singletonInjResolved.dependencies
      ∧ (Clone singletonInjResolved).instances = singletonInjResolved.instances
      ∧ (Clone singletonInjResolved).trace = [])
  ∧ resolveOne 5 (Clone singletonInjResolved) tA = (.ok 0, Clone singletonInjResolved)
  ∧ (lookupDep (⟨[(tB, ⟨.newInstance, freshP []⟩)], [], [], 0⟩ : Injector) tB
        = some ⟨.newInstance, freshP []⟩
      ∧ resolveOne 5 (New 0) tB = (.error (.errNoSuchProvider tB), New 0))
  ∧ (lookupDep (⟨(tB, ⟨.newInstance, freshP []⟩) :: singletonInjResolved.dependencies,
        [(tA, 0)], [], 1⟩ : Injector) tB = some ⟨.newInstance, freshP []⟩
      ∧ resolveOne 5 (Clone singletonInjResolved) tB
        = (.error (.errNoSuchProvider tB), Clone singletonInjResolved)) :=
  ⟨clone_inherits_and_isolates.1 singletonInjResolved,
   clone_inherits_and_isolates.2.1 singletonInjResolved tA ⟨.singleton, freshP []⟩ 0 4
     rfl rfl rfl,
   clone_inherits_and_isolates.2.2.1 (New 0) tB (freshP [])
     ⟨[(tB, ⟨.newInstance, freshP []⟩)], [], [], 0⟩ 4 rfl rfl,
   clone_inherits_and_isolates.2.2.2 singletonInjResolved tB (freshP [])
     ⟨(tB, ⟨.newInstance, freshP []⟩) :: singletonInjResolved.dependencies, [(tA, 0)], [], 1⟩ 4
     rfl rfl⟩

/-- C8 counterexample: a function returning one value plus an error
(`numOut = 2`, as in `func() (*T, error)`) is rejected with
`ErrInvalidProvider` — the repository's own test expects exactly this
panic — and a non-function is rejected with `ErrNoSuchCallable`, not
`ErrInvalidProvider`. -/
theorem provider_validation_counterexample :
    ProvideNew (New 0) tA ⟨true, 2, [], .fresh⟩ = .error .errInvalidProvider
  ∧ (∀ (inj' : Injector), ProvideNew (New 0) tA ⟨true, 2, [], .fresh⟩ ≠ .ok inj')
  ∧ ProvideNew (New 0) tA ⟨false, 1, [], .fresh⟩ = .error .errNoSuchCallable := by
  refine ⟨rfl, ?_, rfl⟩
  intro inj' h
  rw [show ProvideNew (New 0) tA ⟨true, 2, [], .fresh⟩
      = Except.error KError.errInvalidProvider from rfl] at h
  exact Except.noConfusion h

/-- C8 amended: registration validates the constructor — a non-function
fails with `ErrNoSuchCallable`; a function whose return count is not
exactly one (including one value plus an error) fails with
`ErrInvalidProvider`; a function returning exactly one value is accepted,
by both registration operations. -/
theorem registration_validates_constructor :
    ∀ (inj : Injector) (t : GoType) (p : Provider), lookupDep inj t = none →
      (p.isFunc = false →
        ProvideNew inj t p = .error .errNoSuchCallable
        ∧ ProvideSingleton inj t p = .error .errNoSuchCallable)
    ∧ (p.isFunc = true → p.numOut ≠ 1 →
        ProvideNew inj t p = .error .errInvalidProvider
        ∧ ProvideSingleton inj t p = .error .errInvalidProvider)
    ∧ (p.isFunc = true → p.numOut = 1 →
        ProvideNew inj t p
          = .ok { inj with dependencies := (t, ⟨.newInstance, p⟩) :: inj.dependencies }
        ∧ ProvideSingleton inj t p
          = .ok { inj with dependencies := (t, ⟨.singleton, p⟩) :: inj.dependencies }) := by
  intro inj t p h
  refine ⟨?_, ?_, ?_⟩
  · intro hf
    constructor <;> simp [ProvideNew, ProvideSingleton, ValidateProvider, h, hf]
  · intro hf hn
    constructor <;> simp [ProvideNew, ProvideSingleton, ValidateProvider, h, hf, hn]
  · intro hf hn
    constructor <;> simp [ProvideNew, ProvideSingleton, ValidateProvider, h, hf, hn]

/-- Witness for the amended C8. -/
theorem registration_validates_constructor_witness :
    lookupDep (New 0) tA = none
  ∧ ProvideNew (New 0) tA (freshP [])
      = .ok { New 0 with dependencies := [(tA, ⟨.newInstance, freshP []⟩)] }
  ∧ ProvideNew (New 0) tA ⟨false, 1, [], .fresh⟩ = .error .errNoSuchCallable :=
  ⟨rfl,
    ((registration_validates_constructor (New 0) tA (freshP []) rfl).2.2 rfl rfl).1,
    ((registration_validates_constructor (New 0) tA ⟨false, 1, [], .fresh⟩ rfl).1 rfl).1⟩

/-- C9: registering a second provider for an already-registered key fails
with `ErrProviderAlreadyRegistered` under every registration operation
(`ProvideNew`, `ProvideSingleton`, and the `Provide` value shorthand), and
the injector is left unchanged. -/
theorem duplicate_registration_fails :
    ∀ (inj : Injector) (t : GoType) (d : Dependency) (p : Provider) (v : Instance)
      (rest : List (GoType × Instance)),
      lookupDep inj t = some d →
        ProvideNew inj t p = .error (.errProviderAlreadyRegistered t)
      ∧ ProvideSingleton inj t p = .error (.errProviderAlreadyRegistered t)
      ∧ Provide inj ((t, v) :: rest) = (some (.errProviderAlreadyRegistered t), inj) := by
  intro inj t d p v rest h
  refine ⟨?_, ?_, ?_⟩ <;> simp [ProvideNew, ProvideSingleton, Provide, h]

/-- Witness for C9: re-registering `tA` on `newInj` fails in all three ways. -/
theorem duplicate_registration_fails_witness :
    lookupDep newInj tA = some ⟨.newInstance, freshP []⟩
  ∧ (ProvideNew newInj tA (freshP []) = .error (.errProviderAlreadyRegistered tA)
      ∧ ProvideSingleton newInj tA (freshP []) = .error (.errProviderAlreadyRegistered tA)
      ∧ Provide newInj [(tA, 7)] = (some (.errProviderAlreadyRegistered tA), newInj)) :=
  ⟨rfl, duplicate_registration_fails newInj tA ⟨.newInstance, freshP []⟩ (freshP []) 7 [] rfl⟩

/-- C10: the trace stores rendered type names and decides membership by
string equality, so two distinct registered types with equal renderings
(`u1 ≠ u2`, both rendering as `"pkg.T"`) produce a spurious
`ErrCyclicDependency` — resolving `u1` (which depends only on the
dependency-free `u2`) fails with chain `["pkg.T", "pkg.T"]` even though
`u2` alone resolves fine, so no true dependency cycle exists. -/
theorem cycle_detection_by_rendered_name :
    u1 ≠ u2 ∧ u1.str = u2.str
  ∧ lookupDep sameNameInj u1 = some ⟨.newInstance, freshP [u2]⟩
  ∧ lookupDep sameNameInj u2 = some ⟨.newInstance, freshP []⟩
  ∧ (resolveOne 3 sameNameInj u1).1 = .error (.errCyclicDependency ["pkg.T", "pkg.T"])
  ∧ resolveOne 2 sameNameInj u2 = (.ok 0, ⟨sameNameInj.dependencies, [], [], 1⟩) :=
  ⟨by decide, rfl, rfl, rfl, rfl, rfl⟩
end Katana
